import Mathlib

/-!
Shallow embedding of `scripts/sync_from_sheet.py` (lotto-data repository).

Strings are modelled as `List Char`.  Python string/stdlib primitives used by
the script (`str.lower`, `str.isalnum`, `str.strip`, `int(...)`,
`datetime.strptime`, `str.splitlines`, `csv.DictReader`, `dict`) are modelled
by the `py...`-prefixed definitions below; each carries a doc comment stating
what it models and which simplifications were taken.  Fallible code is
modelled with `Except SyncError`; the exception messages of the script carry a
row number, a field name and the offending raw value, which we model as a
structured error type holding exactly that data.
-/

namespace LottoSync

/-- Strings of the Python program, modelled as lists of characters. -/
abbrev Str := List Char

/-- Shorthand turning a Lean string literal into the `Str` model. -/
def str (x : String) : Str := x.data

/-- Models Python `str.lower()` per character: map `A`–`Z` (codepoints 65–90)
to `a`–`z`.  Restricted to ASCII case mapping; every non-ASCII character
appearing in this repository's headers and alias table (Korean Hangul) is
caseless, so this agrees with Python there. -/
def pyToLower (c : Char) : Char :=
  if 65 ≤ c.toNat ∧ c.toNat ≤ 90 then Char.ofNat (c.toNat + 32) else c

/-- Models Python `str.upper()` per character: map `a`–`z` (codepoints 97–122)
to `A`–`Z`, with the same ASCII restriction as `pyToLower`. -/
def pyToUpper (c : Char) : Char :=
  if 97 ≤ c.toNat ∧ c.toNat ≤ 122 then Char.ofNat (c.toNat - 32) else c

/-- Models Python `str.isalnum()` per character: ASCII digits, uppercase and
lowercase letters are exact; non-ASCII codepoints are treated as alphanumeric —
every non-ASCII character occurring in this repository's headers and alias
table (Hangul syllables) is a Unicode letter, for which Python's `isalnum` is
also `True`. -/
def pyIsAlnum (c : Char) : Bool :=
  (48 ≤ c.toNat && c.toNat ≤ 57) || (65 ≤ c.toNat && c.toNat ≤ 90) ||
    (97 ≤ c.toNat && c.toNat ≤ 122) || 0x7F < c.toNat

/-- Embeds `normalize_key` (line 13): lowercase the key, keep only the
alphanumeric characters. -/
def normalize_key (key : Str) : Str :=
  (key.map pyToLower).filter pyIsAlnum

/-- Embeds the `FIELD_ALIASES` table (lines 17-27), keyed by canonical field
name. -/
def FIELD_ALIASES (field : String) : List Str :=
  match field with
  | "round" => [str "round", str "drawno", str "drawnum", str "draw", str "회차"]
  | "date" => [str "date", str "drawdate", str "추첨일"]
  | "num1" => [str "num1", str "n1", str "no1", str "번호1"]
  | "num2" => [str "num2", str "n2", str "no2", str "번호2"]
  | "num3" => [str "num3", str "n3", str "no3", str "번호3"]
  | "num4" => [str "num4", str "n4", str "no4", str "번호4"]
  | "num5" => [str "num5", str "n5", str "no5", str "번호5"]
  | "num6" => [str "num6", str "n6", str "no6", str "번호6"]
  | "bonus" => [str "bonusnumber", str "bonus", str "보너스", str "보너스번호"]
  | _ => []

/-- A Python `dict` with `Str` keys, modelled as an association list with
unique keys kept in insertion order. -/
abbrev Row := List (Str × Str)

/-- Models `d[k] = v` on a Python dict: if the key is present its value is
replaced in place, otherwise the pair is appended. -/
def pyDictInsert {β : Type} (l : List (Str × β)) (k : Str) (v : β) :
    List (Str × β) :=
  match l with
  | [] => [(k, v)]
  | (k', v') :: rest =>
    if k' = k then (k', v) :: rest else (k', v') :: pyDictInsert rest k v

/-- Models building a Python dict from a stream of key/value pairs (later pairs
overwrite the value of an earlier equal key, keeping its position). -/
def pyDict {β : Type} (ps : List (Str × β)) : List (Str × β) :=
  ps.foldl (fun acc p => pyDictInsert acc p.1 p.2) []

/-- Models Python `d.get(k)`: the value at the first (hence, after `pyDict`,
only) occurrence of the key. -/
def dictGet {β : Type} (l : List (Str × β)) (k : Str) : Option β :=
  match l with
  | [] => none
  | (k', v) :: rest => if k' = k then some v else dictGet rest k

/-- Models Python `str.strip()` with no argument: remove leading and trailing
whitespace.  `Char.isWhitespace` covers space, tab, CR and LF — the whitespace
that can occur in a decoded CSV cell. -/
def pyStrip (v : Str) : Str :=
  ((v.dropWhile Char.isWhitespace).reverse.dropWhile Char.isWhitespace).reverse

/-- Embeds `pick_value` (lines 30-35): scan the aliases in order and return the
first whose row value is truthy (present and non-empty). -/
def pick_value (row : Row) (aliases : List Str) : Option Str :=
  match aliases with
  | [] => none
  | a :: rest =>
    match dictGet row a with
    | some v => if v ≠ [] then some v else pick_value row rest
    | none => pick_value row rest

/-- Structured model of the script's exception payloads: each constructor
records exactly the data interpolated into the corresponding message string
(row number, field name, offending raw value, list of missing field names). -/
inductive SyncError : Type
  /-- Models `RuntimeError("CSV header not found.")` (line 87). -/
  | headerNotFound
  /-- Models `RuntimeError(f"row N: missing fields (...)")` (line 114). -/
  | missingFields (row_num : Nat) (missing : List String)
  /-- Models `ValueError(f"row N: invalid integer in 'f' -> v")` (lines 42-44). -/
  | invalidInteger (row_num : Nat) (field : String) (value : Str)
  /-- Models `ValueError(f"row N: invalid date format in 'f' -> v ...")` (lines 49-51). -/
  | invalidDateFormat (row_num : Nat) (field : String) (value : Str)
  /-- Models `ValueError(f"row N: invalid calendar date in 'f' -> v")` (lines 56-58). -/
  | invalidCalendarDate (row_num : Nat) (field : String) (value : Str)
  /-- Models `RuntimeError("No valid draw rows found in CSV.")` (line 130). -/
  | noValidRows
  /-- Models `RuntimeError("GOOGLE_SHEET_ID is required ...")` (lines 67-70). -/
  | missingSheetId
  deriving DecidableEq, Repr

instance {ε α : Type} [DecidableEq ε] [DecidableEq α] : DecidableEq (Except ε α) :=
  fun x y =>
  match x, y with
  | .ok a, .ok b =>
    if h : a = b then .isTrue (by rw [h]) else .isFalse (by simp [h])
  | .error e, .error f =>
    if h : e = f then .isTrue (by rw [h]) else .isFalse (by simp [h])
  | .ok _, .error _ => .isFalse (by simp)
  | .error _, .ok _ => .isFalse (by simp)

/-- Numeric value of an ASCII digit. -/
def digitVal (c : Char) : Nat := c.toNat - 48

/-- Tail of CPython's decimal `digitpart` grammar after the first digit:
each further digit may be preceded by a single underscore, and an underscore
must be followed by a digit.  `acc` is the value accumulated so far. -/
def digitpartAux (acc : Nat) : Str → Option Nat
  | [] => some acc
  | c :: rest =>
    if c = '_' then
      match rest with
      | [] => none
      | c2 :: rest2 =>
        if c2.isDigit then digitpartAux (acc * 10 + digitVal c2) rest2 else none
    else if c.isDigit then digitpartAux (acc * 10 + digitVal c) rest else none

/-- CPython's decimal `digitpart`: `digit (["_"] digit)*` with its value. -/
def digitpart : Str → Option Nat
  | [] => none
  | c :: rest => if c.isDigit then digitpartAux (digitVal c) rest else none

/-- Models CPython `int(value)` on a `str` argument with the default base 10:
optional surrounding whitespace, an optional sign, then a decimal `digitpart`
(digits optionally separated by single underscores).  Restricted to ASCII
digits; Python additionally accepts non-ASCII Unicode decimal digits, which do
not occur in this repository's data. -/
def pyInt (value : Str) : Option Int :=
  match pyStrip value with
  | '+' :: rest => (digitpart rest).map Int.ofNat
  | '-' :: rest => (digitpart rest).map fun n => -Int.ofNat n
  | t => (digitpart t).map Int.ofNat

/-- Embeds `parse_int` (lines 38-44): `int(value)`, wrapping failure in an
error naming the row number, the field name and the raw value. -/
def parse_int (value : Str) (field_name : String) (row_num : Nat) :
    Except SyncError Int :=
  match pyInt value with
  | some n => .ok n
  | none => .error (.invalidInteger row_num field_name value)

/-- Models the anchored regular expression `^\d{4}\.\d{2}\.\d{2}$` of line 48
on the whole value.  (Python's `$` would also tolerate one trailing newline,
but every value reaching `parse_date` has been stripped of surrounding
whitespace first.) -/
def datePatternOk (value : Str) : Bool :=
  match value with
  | [y1, y2, y3, y4, '.', m1, m2, '.', d1, d2] =>
    y1.isDigit && y2.isDigit && y3.isDigit && y4.isDigit &&
      m1.isDigit && m2.isDigit && d1.isDigit && d2.isDigit
  | _ => false

/-- Gregorian leap-year rule, as implemented by Python's `datetime`. -/
def isLeapYear (y : Nat) : Bool :=
  y % 4 = 0 && (y % 100 ≠ 0 || y % 400 = 0)

/-- Number of days in a month, as implemented by Python's `datetime`. -/
def daysInMonth (y m : Nat) : Nat :=
  match m with
  | 1 => 31 | 2 => if isLeapYear y then 29 else 28 | 3 => 31
  | 4 => 30 | 5 => 31 | 6 => 30 | 7 => 31 | 8 => 31
  | 9 => 30 | 10 => 31 | 11 => 30 | 12 => 31
  | _ => 0

/-- Whether `datetime(y, m, d)` is constructible: Python's `datetime` requires
`MINYEAR ≤ y` (`MINYEAR = 1`; the 4-digit pattern already bounds `y ≤ 9999 =
MAXYEAR`), a month of 1–12 and a day within the month. -/
def validYMD (y m d : Nat) : Bool :=
  1 ≤ y && 1 ≤ m && m ≤ 12 && 1 ≤ d && d ≤ daysInMonth y m

/-- Numeric value of a string of ASCII digits. -/
def natOfDigits (ds : Str) : Nat :=
  ds.foldl (fun a c => a * 10 + digitVal c) 0

/-- Year, month and day fields of a value shaped `yyyy.mm.dd`. -/
def dateYear (v : Str) : Nat := natOfDigits (v.take 4)
def dateMonth (v : Str) : Nat := natOfDigits ((v.drop 5).take 2)
def dateDay (v : Str) : Nat := natOfDigits (v.drop 8)

/-- Models `datetime.strptime(value, "%Y.%m.%d")` succeeding: strptime's own
format match (which, on values already matching the line-48 pattern, re-reads
the three digit groups) followed by construction of the `datetime`, which
enforces the calendar ranges. -/
def strptimeYmdOk (value : Str) : Bool :=
  datePatternOk value &&
    validYMD (dateYear value) (dateMonth value) (dateDay value)

/-- Embeds `parse_date` (lines 47-58): reject values not matching the textual
pattern with the format error, then values `strptime` refuses with the
calendar error; otherwise return the value unchanged. -/
def parse_date (value : Str) (field_name : String) (row_num : Nat) :
    Except SyncError Str :=
  if ¬ datePatternOk value then
    .error (.invalidDateFormat row_num field_name value)
  else if strptimeYmdOk value then .ok value
  else .error (.invalidCalendarDate row_num field_name value)

/-- The validated draw record built on lines 116-126, with the eight typed
fields of the output. -/
structure Draw : Type where
  round : Int
  num1 : Int
  num2 : Int
  num3 : Int
  num4 : Int
  num5 : Int
  num6 : Int
  bonus : Int
  date : Str
  deriving DecidableEq, Repr

/-- The `missing` list built on lines 106-112, in source order. -/
def missingOf (draw_date bonus_raw : Option Str) (n_values : List (Option Str)) :
    List String :=
  (if draw_date = none then ["date"] else []) ++
    (if bonus_raw = none then ["bonus"] else []) ++
      (if n_values.any (fun v => v = none) then ["num1~num6"] else [])

/-- Embeds the body of the `for` loop of `parse_draws` (lines 97-127) on an
already-normalized row: `.ok none` models `continue` on a blank row, `.ok
(some d)` models `draws.append(draw)`, `.error` models the raised exception.
The integer fields are parsed in the evaluation order of the `draw` dict
literal (`round`, `num1` … `num6`, `bonus`, then the date), so the first
offending field determines the error.  After the `missing` guard every
optional value is present; `.getD []` models Python's direct use of those
values and is unreachable with its default. -/
def parseRow (row_num : Nat) (row : Row) : Except SyncError (Option Draw) :=
  match pick_value row (FIELD_ALIASES "round") with
  | none => .ok none
  | some round_raw =>
    let draw_date := pick_value row (FIELD_ALIASES "date")
    let bonus_raw := pick_value row (FIELD_ALIASES "bonus")
    let n_values := [pick_value row (FIELD_ALIASES "num1"),
      pick_value row (FIELD_ALIASES "num2"), pick_value row (FIELD_ALIASES "num3"),
      pick_value row (FIELD_ALIASES "num4"), pick_value row (FIELD_ALIASES "num5"),
      pick_value row (FIELD_ALIASES "num6")]
    let missing := missingOf draw_date bonus_raw n_values
    if missing ≠ [] then .error (.missingFields row_num missing)
    else
      match parse_int round_raw "round" row_num with
      | .error e => .error e
      | .ok r =>
        match parse_int ((n_values.getD 0 none).getD []) "num1" row_num with
        | .error e => .error e
        | .ok k1 =>
          match parse_int ((n_values.getD 1 none).getD []) "num2" row_num with
          | .error e => .error e
          | .ok k2 =>
            match parse_int ((n_values.getD 2 none).getD []) "num3" row_num with
            | .error e => .error e
            | .ok k3 =>
              match parse_int ((n_values.getD 3 none).getD []) "num4" row_num with
              | .error e => .error e
              | .ok k4 =>
                match parse_int ((n_values.getD 4 none).getD []) "num5" row_num with
                | .error e => .error e
                | .ok k5 =>
                  match parse_int ((n_values.getD 5 none).getD []) "num6" row_num with
                  | .error e => .error e
                  | .ok k6 =>
                    match parse_int (bonus_raw.getD []) "bonus" row_num with
                    | .error e => .error e
                    | .ok kb =>
                      match parse_date (draw_date.getD []) "date" row_num with
                      | .error e => .error e
                      | .ok dt =>
                        .ok (some ⟨r, k1, k2, k3, k4, k5, k6, kb, dt⟩)

/-- Models splitting one CSV line into cells for unquoted CSV (no cell in this
repository's data contains a quote or an embedded comma): an empty line has no
cells, otherwise split on commas. -/
def rowCells (line : Str) : List Str :=
  if line = [] then []
  else line.foldr
    (fun ch acc =>
      match acc with
      | [] => [[ch]]
      | cur :: rest => if ch = ',' then [] :: cur :: rest else (ch :: cur) :: rest)
    [[]]

/-- Models Python `str.splitlines()` for LF-terminated text (the only line
ending arising here): split on newline, a trailing newline producing no extra
empty line. -/
def pySplitlines (text : Str) : List Str :=
  let parts := text.foldr
    (fun ch acc =>
      match acc with
      | [] => [[ch]]
      | cur :: rest => if ch = '\n' then [] :: cur :: rest else (ch :: cur) :: rest)
    [[]]
  if parts.getLast? = some [] then parts.dropLast else parts

/-- Models the dict `csv.DictReader` yields for one data row: each header name
paired with the cell at its column, `none` (the reader's `restval`) when the
row is shorter; extra cells (filed by the reader under the `None` rest key,
then discarded by the `if key` filter on line 94) are dropped. -/
def rawRow (fields cells : List Str) : List (Str × Option Str) :=
  pyDict ((List.range fields.length).map fun i => (fields.getD i [], cells.get? i))

/-- Embeds the dict comprehension of lines 91-95: keep entries with a truthy
key, normalize the key and strip the value (`None` read as `""`). -/
def buildRow (fields cells : List Str) : Row :=
  pyDict (((rawRow fields cells).filter fun p => p.1 ≠ []).map
    fun p => (normalize_key p.1, pyStrip (p.2.getD [])))

/-- Embeds the iteration of `enumerate(reader, start=n)` over the remaining
lines (lines 90-127): `DictReader` silently swallows lines with no cells
before they are numbered, every other line consumes one row number, and the
first raised error aborts the run. -/
def processRows (fields : List Str) : List Str → Nat → Except SyncError (List Draw)
  | [], _ => .ok []
  | line :: rest, n =>
    match rowCells line with
    | [] => processRows fields rest n
    | c :: cs =>
      match parseRow n (buildRow fields (c :: cs)) with
      | .error e => .error e
      | .ok none => processRows fields rest (n + 1)
      | .ok (some d) =>
        match processRows fields rest (n + 1) with
        | .error e => .error e
        | .ok ds => .ok (d :: ds)

/-- Comparison used by the sort of line 132: ascending by the `round` key. -/
def roundLE (a b : Draw) : Prop := a.round ≤ b.round

instance : DecidableRel roundLE := fun a b =>
  inferInstanceAs (Decidable (a.round ≤ b.round))

instance : IsTotal Draw roundLE := ⟨fun a b => Int.le_total a.round b.round⟩

instance : IsTrans Draw roundLE := ⟨fun _ _ _ h h' => Int.le_trans h h'⟩

/-- The sort of line 132: `sorted(draws, key=lambda item: item["round"])`.
Python's `sorted` is specified as a stable sort by the key, which determines
the result uniquely; it is modelled by a stable sort ascending by `round`. -/
def sortDraws (draws : List Draw) : List Draw :=
  List.insertionSort roundLE draws

/-- Embeds `parse_draws` (lines 84-132): fail when there is no header line or
the header line has no cells (`reader.fieldnames` falsy), process the data
rows starting at row number 2, fail when no draws were collected, and return
the draws sorted by round. -/
def parse_draws (csv_text : Str) : Except SyncError (List Draw) :=
  match pySplitlines csv_text with
  | [] => .error .headerNotFound
  | header :: dataLines =>
    match rowCells header with
    | [] => .error .headerNotFound
    | f :: fs =>
      match processRows (f :: fs) dataLines 2 with
      | .error e => .error e
      | .ok draws =>
        if draws = [] then .error .noValidRows
        else .ok (sortDraws draws)

/-- A JSON scalar of the output record. -/
inductive JVal : Type
  | int (n : Int)
  | string (v : Str)
  deriving DecidableEq, Repr

/-- The JSON object `json.dumps` serializes for a draw: the eight keys in the
insertion order of the dict literal of lines 116-126. -/
def drawJson (d : Draw) : List (String × JVal) :=
  [("round", .int d.round), ("num1", .int d.num1), ("num2", .int d.num2),
    ("num3", .int d.num3), ("num4", .int d.num4), ("num5", .int d.num5),
    ("num6", .int d.num6), ("bonus", .int d.bonus), ("date", .string d.date)]

/-- Embeds `write_outputs` (lines 142-143): the JSON object written to
`lotto.json` is the last element of the sorted draw list (`draws[-1]`);
`none` models the `IndexError` an empty list would raise. -/
def write_outputs (draws : List Draw) : Option (List (String × JVal)) :=
  (draws.getLast?).map drawJson

/-- Embeds `get_csv_source_url` (lines 61-75) over an environment mapping a
variable name to its value (`none` when unset).  Python's truthiness tests
make a variable set to the empty string fall the same way as an unset one. -/
def get_csv_source_url (env : String → Option String) : Except SyncError String :=
  let custom_url := (env "GOOGLE_SHEET_CSV_URL").getD ""
  if custom_url ≠ "" then .ok custom_url
  else
    let sheet_id := (env "GOOGLE_SHEET_ID").getD ""
    if sheet_id = "" then .error .missingSheetId
    else
      let gid := (env "GOOGLE_SHEET_GID").getD "0"
      .ok ("https://docs.google.com/spreadsheets/d/" ++ sheet_id ++
        "/export?format=csv&gid=" ++ gid)

/-! Spec-side definitions, written from the specification's words and used to
compare the code's behaviour against the spec in refinement claims. -/

/-- The spec's textual date pattern, in the spec's words: four digits, `.`,
two digits, `.`, two digits, covering the whole value. -/
def specDatePattern (v : Str) : Prop :=
  ∃ y1 y2 y3 y4 m1 m2 d1 d2 : Char,
    v = [y1, y2, y3, y4, '.', m1, m2, '.', d1, d2] ∧
    (y1.isDigit ∧ y2.isDigit ∧ y3.isDigit ∧ y4.isDigit) ∧
    (m1.isDigit ∧ m2.isDigit) ∧ (d1.isDigit ∧ d2.isDigit)

/-- A plain base-10 integer literal as the claim words it: an optional sign
followed by one or more decimal digits. -/
def isBase10IntLiteral (v : Str) : Bool :=
  match v with
  | '+' :: core => core ≠ [] && core.all Char.isDigit
  | '-' :: core => core ≠ [] && core.all Char.isDigit
  | core => core ≠ [] && core.all Char.isDigit

/-- CPython's decimal digit-part grammar `digit (["_"] digit)*`, as an
inductive phrase structure: one digit, a digit before more, or a digit and a
single separating underscore before more. -/
inductive DigitsSep : Str → Prop
  | single (c : Char) : c.isDigit → DigitsSep [c]
  | more (c : Char) (rest : Str) : c.isDigit → DigitsSep rest → DigitsSep (c :: rest)
  | sep (c : Char) (rest : Str) :
    c.isDigit → DigitsSep rest → DigitsSep (c :: '_' :: rest)

/-- Tail phrases of the digit-part grammar: the empty tail, a digit before a
tail, or an underscore and a digit before a tail. -/
inductive TailSep : Str → Prop
  | nil : TailSep []
  | digit (c : Char) (rest : Str) : c.isDigit → TailSep rest → TailSep (c :: rest)
  | sep (c : Char) (rest : Str) :
    c.isDigit → TailSep rest → TailSep ('_' :: c :: rest)

/-- The strings `int` accepts (once surrounding whitespace is stripped), per
its documented grammar: an optional sign, then digits optionally separated by
single underscores. -/
def specIntAccept (v : Str) : Prop :=
  match v with
  | '+' :: core => DigitsSep core
  | '-' :: core => DigitsSep core
  | core => DigitsSep core

/-- The integer denoted by an accepted string: the signed value of its digits
with the underscores removed. -/
def specIntVal (v : Str) : Int :=
  match v with
  | '+' :: core => Int.ofNat (natOfDigits (core.filter fun c => c ≠ '_'))
  | '-' :: core => -Int.ofNat (natOfDigits (core.filter fun c => c ≠ '_'))
  | core => Int.ofNat (natOfDigits (core.filter fun c => c ≠ '_'))

/-- The row number carried by a row-level validation error, `none` for the
run-level errors. -/
def rowErrNum : SyncError → Option Nat
  | .missingFields n _ => some n
  | .invalidInteger n _ _ => some n
  | .invalidDateFormat n _ _ => some n
  | .invalidCalendarDate n _ _ => some n
  | .headerNotFound => none
  | .noValidRows => none
  | .missingSheetId => none

/-! Helper lemmas -/

theorem toNat_ofNat_valid (n : Nat) (h : n.isValidChar) : (Char.ofNat n).toNat = n := by
  rw [Char.ofNat, dif_pos h]
  rfl

theorem pyToLower_pyToUpper (c : Char) : pyToLower (pyToUpper c) = pyToLower c := by
  unfold pyToUpper pyToLower
  by_cases h : 97 ≤ c.toNat ∧ c.toNat ≤ 122
  · rw [if_pos h]
    have hv : (c.toNat - 32).isValidChar := Or.inl (by omega)
    rw [toNat_ofNat_valid _ hv]
    rw [if_pos (by omega), if_neg (by omega)]
    have : c.toNat - 32 + 32 = c.toNat := by omega
    rw [this, Char.ofNat_toNat]
  · rw [if_neg h]

theorem pyIsAlnum_pyToLower (c : Char) : pyIsAlnum (pyToLower c) = pyIsAlnum c := by
  unfold pyToLower pyIsAlnum
  by_cases h : 65 ≤ c.toNat ∧ c.toNat ≤ 90
  · rw [if_pos h]
    have hv : (c.toNat + 32).isValidChar := Or.inl (by omega)
    rw [toNat_ofNat_valid _ hv, Bool.eq_iff_iff]
    simp only [Bool.or_eq_true, Bool.and_eq_true, decide_eq_true_eq]
    omega
  · rw [if_neg h]

theorem pairwise_round_le_getLast :
    ∀ (l : List Draw), l.Pairwise roundLE → ∀ (hne : l ≠ []) (a : Draw), a ∈ l →
      a.round ≤ (l.getLast hne).round := by
  intro l
  induction l with
  | nil => intro _ hne; exact absurd rfl hne
  | cons x xs ih =>
    intro hp hne a ha
    rcases List.mem_cons.mp ha with rfl | hmem
    · by_cases hxs : xs = []
      · subst hxs; simp [List.getLast]
      · rw [List.getLast_cons hxs]
        exact (List.pairwise_cons.mp hp).1 _ (List.getLast_mem hxs)
    · by_cases hxs : xs = []
      · subst hxs; simp at hmem
      · rw [List.getLast_cons hxs]
        exact ih (List.pairwise_cons.mp hp).2 hxs a hmem

/-! Claim theorems -/

/-- C1: parsing the spec's two-data-row example CSV yields exactly the draws
of rounds 1 and 2, and the latest draw written as the output JSON object is
the record round 2, nums 8–13, bonus 14, date "2024.01.13", with the keys in
the output's order. -/
theorem C1_example_csv_output :
    parse_draws (str "round,date,num1,num2,num3,num4,num5,num6,bonusNumber\n1,2024.01.06,1,2,3,4,5,6,7\n2,2024.01.13,8,9,10,11,12,13,14\n") =
      .ok [⟨1, 1, 2, 3, 4, 5, 6, 7, str "2024.01.06"⟩,
        ⟨2, 8, 9, 10, 11, 12, 13, 14, str "2024.01.13"⟩] ∧
    write_outputs [⟨1, 1, 2, 3, 4, 5, 6, 7, str "2024.01.06"⟩,
        ⟨2, 8, 9, 10, 11, 12, 13, 14, str "2024.01.13"⟩] =
      some [("round", .int 2), ("num1", .int 8), ("num2", .int 9),
        ("num3", .int 10), ("num4", .int 11), ("num5", .int 12),
        ("num6", .int 13), ("bonus", .int 14),
        ("date", .string (str "2024.01.13"))] := by
  constructor
  · decide
  · decide

/-- C10: an empty-string configuration value is treated as absent: with
`GOOGLE_SHEET_CSV_URL` set to `""` the resolver behaves exactly as if that
variable were unset (falling through to composing the export URL), and if
additionally `GOOGLE_SHEET_ID` is set to `""` it raises the configuration
error instead of composing a URL with an empty spreadsheet id. -/
theorem C10_empty_env_value_is_absent (env : String → Option String) :
    (env "GOOGLE_SHEET_CSV_URL" = some "" →
      get_csv_source_url env =
        get_csv_source_url fun k =>
          if k = "GOOGLE_SHEET_CSV_URL" then none else env k) ∧
    (env "GOOGLE_SHEET_CSV_URL" = some "" → env "GOOGLE_SHEET_ID" = some "" →
      get_csv_source_url env = .error .missingSheetId) := by
  constructor
  · intro h
    unfold get_csv_source_url
    simp [h]
  · intro h h2
    unfold get_csv_source_url
    simp [h, h2]

/-- Witness for C10 at a concrete environment with both variables set to the
empty string. -/
theorem C10_witness :
    get_csv_source_url (fun k =>
        if k = "GOOGLE_SHEET_CSV_URL" then some ""
        else if k = "GOOGLE_SHEET_ID" then some "" else none) =
      .error .missingSheetId :=
  (C10_empty_env_value_is_absent _).2 (by decide) (by decide)

/-- C7: a data row whose round value is absent, empty or whitespace-only is
silently skipped: whenever no round alias yields a value, the row parser
returns no draw and no error, whatever the other cells hold; concretely, a CSV
with a whitespace-only-round row full of malformed cells and an all-empty-cells
row still parses to exactly the draw of its one valid row. -/
theorem C7_blank_round_row_skipped :
    (∀ (n : Nat) (row : Row),
      pick_value row (FIELD_ALIASES "round") = none → parseRow n row = .ok none) ∧
    parse_draws (str "round,date,num1,num2,num3,num4,num5,num6,bonusNumber\n ,garbage,!!,x,y,z,w,q,v\n,,,,,,,,\n2,2024.01.13,8,9,10,11,12,13,14\n") =
      .ok [⟨2, 8, 9, 10, 11, 12, 13, 14, str "2024.01.13"⟩] := by
  constructor
  · intro n row h
    unfold parseRow
    rw [h]
  · decide

/-- Witness for C7 at a concrete row with a populated malformed date cell and
no round cell. -/
theorem C7_witness :
    parseRow 2 [(str "date", str "garbage"), (str "num1", str "!!")] = .ok none :=
  C7_blank_round_row_skipped.1 2 [(str "date", str "garbage"), (str "num1", str "!!")]
    (by decide)

/-- C8: with a header row but zero non-blank data rows the parse fails with
the empty-result error and no draw list is produced: `parse_draws` never
returns an empty list, a header-only CSV yields the empty-result error, and so
does a CSV whose data rows all have blank round cells. -/
theorem C8_zero_nonblank_rows_error :
    (∀ (csv : Str) (l : List Draw), parse_draws csv = .ok l → l ≠ []) ∧
    parse_draws (str "round,date,num1,num2,num3,num4,num5,num6,bonusNumber\n") =
      .error .noValidRows ∧
    parse_draws (str "round,date,num1,num2,num3,num4,num5,num6,bonusNumber\n ,2024.01.13,8,9,10,11,12,13,14\n,,,,,,,,\n") =
      .error .noValidRows := by
  refine ⟨?_, by decide, by decide⟩
  intro csv l h
  unfold parse_draws at h
  split at h
  · exact absurd h (by simp)
  · split at h
    · exact absurd h (by simp)
    · split at h
      · exact absurd h (by simp)
      · split at h
        · exact absurd h (by simp)
        · rename_i ds hok hcond
          injection h with h
          subst h
          intro hnil
          have hp := List.perm_insertionSort roundLE ds
          unfold sortDraws at hnil
          rw [hnil] at hp
          exact hcond hp.symm.eq_nil

/-- Witness for C8 on the spec's example CSV: its parsed draw list is
non-empty. -/
theorem C8_witness :
    [(⟨1, 1, 2, 3, 4, 5, 6, 7, str "2024.01.06"⟩ : Draw),
      ⟨2, 8, 9, 10, 11, 12, 13, 14, str "2024.01.13"⟩] ≠ [] :=
  C8_zero_nonblank_rows_error.1
    (str "round,date,num1,num2,num3,num4,num5,num6,bonusNumber\n1,2024.01.06,1,2,3,4,5,6,7\n2,2024.01.13,8,9,10,11,12,13,14\n")
    _ (by decide)

/-- C2: whenever the parser returns a draw list, that list is non-empty and
sorted ascending by round, and its last element — the draw whose JSON object
`write_outputs` emits — is a member whose round bounds the round of every
parsed draw, i.e. it attains the maximum round. -/
theorem C2_sorted_last_is_max (csv : Str) (l : List Draw)
    (h : parse_draws csv = .ok l) :
    l ≠ [] ∧ l.Pairwise (fun a b => a.round ≤ b.round) ∧
    ∃ dmax, l.getLast? = some dmax ∧ dmax ∈ l ∧
      (∀ d ∈ l, d.round ≤ dmax.round) ∧ write_outputs l = some (drawJson dmax) := by
  unfold parse_draws at h
  split at h
  · exact absurd h (by simp)
  · split at h
    · exact absurd h (by simp)
    · split at h
      · exact absurd h (by simp)
      · split at h
        · exact absurd h (by simp)
        · rename_i ds hok hcond
          injection h with h
          subst h
          have hp : (sortDraws ds).Pairwise roundLE :=
            List.sorted_insertionSort roundLE ds
          have hperm := List.perm_insertionSort roundLE ds
          have hne : sortDraws ds ≠ [] := by
            intro hnil
            unfold sortDraws at hnil
            rw [hnil] at hperm
            exact hcond hperm.symm.eq_nil
          refine ⟨hne, hp.imp fun hr => hr, (sortDraws ds).getLast hne,
            List.getLast?_eq_getLast _ hne, List.getLast_mem hne,
            fun d hd => pairwise_round_le_getLast _ hp hne d hd, ?_⟩
          unfold write_outputs
          rw [List.getLast?_eq_getLast _ hne]
          rfl

/-- Witness for C2 at the spec's example CSV. -/
theorem C2_witness :
    ([⟨1, 1, 2, 3, 4, 5, 6, 7, str "2024.01.06"⟩,
        ⟨2, 8, 9, 10, 11, 12, 13, 14, str "2024.01.13"⟩] : List Draw) ≠ [] ∧
    ([⟨1, 1, 2, 3, 4, 5, 6, 7, str "2024.01.06"⟩,
        ⟨2, 8, 9, 10, 11, 12, 13, 14, str "2024.01.13"⟩] : List Draw).Pairwise
      (fun a b => a.round ≤ b.round) ∧
    ∃ dmax,
      ([⟨1, 1, 2, 3, 4, 5, 6, 7, str "2024.01.06"⟩,
          ⟨2, 8, 9, 10, 11, 12, 13, 14, str "2024.01.13"⟩] : List Draw).getLast? =
        some dmax ∧
      dmax ∈ ([⟨1, 1, 2, 3, 4, 5, 6, 7, str "2024.01.06"⟩,
          ⟨2, 8, 9, 10, 11, 12, 13, 14, str "2024.01.13"⟩] : List Draw) ∧
      (∀ d ∈ ([⟨1, 1, 2, 3, 4, 5, 6, 7, str "2024.01.06"⟩,
          ⟨2, 8, 9, 10, 11, 12, 13, 14, str "2024.01.13"⟩] : List Draw),
        d.round ≤ dmax.round) ∧
      write_outputs [⟨1, 1, 2, 3, 4, 5, 6, 7, str "2024.01.06"⟩,
          ⟨2, 8, 9, 10, 11, 12, 13, 14, str "2024.01.13"⟩] =
        some (drawJson dmax) :=
  C2_sorted_last_is_max
    (str "round,date,num1,num2,num3,num4,num5,num6,bonusNumber\n1,2024.01.06,1,2,3,4,5,6,7\n2,2024.01.13,8,9,10,11,12,13,14\n")
    _ (by decide)

theorem datePatternOk_iff (v : Str) : datePatternOk v = true ↔ specDatePattern v := by
  constructor
  · intro h
    unfold datePatternOk at h
    split at h
    · rename_i y1 y2 y3 y4 m1 m2 d1 d2
      simp only [Bool.and_eq_true] at h
      exact ⟨y1, y2, y3, y4, m1, m2, d1, d2, rfl,
        ⟨h.1.1.1.1.1.1.1, h.1.1.1.1.1.1.2, h.1.1.1.1.1.2, h.1.1.1.1.2⟩,
        ⟨h.1.1.1.2, h.1.1.2⟩, h.1.2, h.2⟩
    · exact Bool.noConfusion h
  · rintro ⟨y1, y2, y3, y4, m1, m2, d1, d2, rfl, ⟨h1, h2, h3, h4⟩, ⟨h5, h6⟩, h7, h8⟩
    simp [datePatternOk, h1, h2, h3, h4, h5, h6, h7, h8]

/-- C4: a date value is accepted exactly when it matches the textual pattern
(four digits, `.`, two digits, `.`, two digits) and its digit groups form a
real calendar date; a pattern failure yields the invalid-format error and a
calendar failure the distinct invalid-calendar-date error, each naming the row
number and the value; in particular "2024.02.30" is rejected with the
calendar error despite matching the pattern. -/
theorem C4_date_accept_iff (v : Str) (f : String) (n : Nat) :
    (parse_date v f n = .ok v ↔
      specDatePattern v ∧ validYMD (dateYear v) (dateMonth v) (dateDay v) = true) ∧
    (¬ specDatePattern v →
      parse_date v f n = .error (.invalidDateFormat n f v)) ∧
    (specDatePattern v → validYMD (dateYear v) (dateMonth v) (dateDay v) = false →
      parse_date v f n = .error (.invalidCalendarDate n f v)) ∧
    parse_date (str "2024.02.30") f n =
      .error (.invalidCalendarDate n f (str "2024.02.30")) := by
  have hstr : strptimeYmdOk v =
      (datePatternOk v && validYMD (dateYear v) (dateMonth v) (dateDay v)) := rfl
  refine ⟨?_, ?_, ?_, ?_⟩
  · constructor
    · intro h
      cases hb : datePatternOk v
      · simp [parse_date, hb] at h
      · cases hs2 : strptimeYmdOk v
        · simp [parse_date, hb, hs2] at h
        · have hv : validYMD (dateYear v) (dateMonth v) (dateDay v) = true := by
            have hcomb : (datePatternOk v &&
                validYMD (dateYear v) (dateMonth v) (dateDay v)) = true := by
              rw [← hstr]; exact hs2
            simpa [hb] using hcomb
          exact ⟨(datePatternOk_iff v).mp hb, hv⟩
    · rintro ⟨hs, hv⟩
      have hb : datePatternOk v = true := (datePatternOk_iff v).mpr hs
      have hs2 : strptimeYmdOk v = true := by rw [hstr, hb, hv]; rfl
      simp [parse_date, hb, hs2]
  · intro hns
    have hb : datePatternOk v = false := by
      cases hb2 : datePatternOk v
      · rfl
      · exact absurd ((datePatternOk_iff v).mp hb2) hns
    simp [parse_date, hb]
  · intro hs hv
    have hb : datePatternOk v = true := (datePatternOk_iff v).mpr hs
    have hs2 : strptimeYmdOk v = false := by rw [hstr, hb, hv]; rfl
    simp [parse_date, hb, hs2]
  · have hb : datePatternOk (str "2024.02.30") = true := by decide
    have hs2 : strptimeYmdOk (str "2024.02.30") = false := by decide
    simp [parse_date, hb, hs2]

/-- Witness for C4 at the value "2024.13.01", which matches the pattern but
has no thirteenth month. -/
theorem C4_witness :
    parse_date (str "2024.13.01") "date" 5 =
      .error (.invalidCalendarDate 5 "date" (str "2024.13.01")) :=
  (C4_date_accept_iff (str "2024.13.01") "date" 5).2.2.1
    ⟨'2', '0', '2', '4', '1', '3', '0', '1', by decide⟩ (by decide)

theorem pick_value_cons_absent (row : Row) (a : Str) (rest : List Str)
    (h : dictGet row a = none) : pick_value row (a :: rest) = pick_value row rest := by
  show (match dictGet row a with
    | some v => if v ≠ [] then some v else pick_value row rest
    | none => pick_value row rest) = pick_value row rest
  rw [h]

theorem pick_value_cons_empty (row : Row) (a : Str) (rest : List Str)
    (h : dictGet row a = some []) :
    pick_value row (a :: rest) = pick_value row rest := by
  show (match dictGet row a with
    | some v => if v ≠ [] then some v else pick_value row rest
    | none => pick_value row rest) = pick_value row rest
  rw [h]
  exact if_neg (by simp)

theorem pick_value_cons_found (row : Row) (a : Str) (rest : List Str) (w : Str)
    (h : dictGet row a = some w) (hw : w ≠ []) :
    pick_value row (a :: rest) = some w := by
  show (match dictGet row a with
    | some v => if v ≠ [] then some v else pick_value row rest
    | none => pick_value row rest) = some w
  rw [h]
  exact if_pos hw

theorem normalize_key_cons (c : Char) (t : Str) :
    normalize_key (c :: t) =
      if pyIsAlnum c then pyToLower c :: normalize_key t else normalize_key t := by
  unfold normalize_key
  simp [List.map_cons, List.filter_cons, pyIsAlnum_pyToLower]

/-- C3: alias resolution scans each canonical key's alias list in priority
order, returning the value of the first alias present with a non-empty
(trimmed) value; the normalizer is case-insensitive (uppercasing a header
changes nothing) and ignores every non-alphanumeric character (erasing them
changes nothing); and the headers "Draw No", "drawno", "DRAW_NO" and "회차"
all normalize into the alias list of the canonical key `round`. -/
theorem C3_alias_resolution :
    (∀ (row : Row) (aliases : List Str) (v : Str),
      pick_value row aliases = some v ↔
        ∃ pre a post, aliases = pre ++ a :: post ∧ dictGet row a = some v ∧
          v ≠ [] ∧ ∀ b ∈ pre, dictGet row b = none ∨ dictGet row b = some []) ∧
    (∀ k : Str, normalize_key (k.map pyToUpper) = normalize_key k) ∧
    (∀ k : Str, normalize_key (k.filter pyIsAlnum) = normalize_key k) ∧
    (normalize_key (str "Draw No") ∈ FIELD_ALIASES "round" ∧
      normalize_key (str "drawno") ∈ FIELD_ALIASES "round" ∧
      normalize_key (str "DRAW_NO") ∈ FIELD_ALIASES "round" ∧
      normalize_key (str "회차") ∈ FIELD_ALIASES "round") := by
  refine ⟨?_, ?_, ?_, by decide, by decide, by decide, by decide⟩
  · intro row aliases
    induction aliases with
    | nil =>
      intro v
      constructor
      · intro h
        exact absurd h (by simp [pick_value])
      · rintro ⟨pre, a, post, heq, -⟩
        exact absurd heq (by cases pre <;> simp)
    | cons a rest ih =>
      intro v
      constructor
      · intro h
        cases hd : dictGet row a with
        | none =>
          rw [pick_value_cons_absent row a rest hd] at h
          obtain ⟨pre, a', post, heq, hget, hne, hpre⟩ := (ih v).mp h
          refine ⟨a :: pre, a', post, by rw [heq]; rfl, hget, hne, ?_⟩
          intro b hb
          rcases List.mem_cons.mp hb with rfl | hbm
          · exact Or.inl hd
          · exact hpre b hbm
        | some w =>
          by_cases hw : w = []
          · subst hw
            rw [pick_value_cons_empty row a rest hd] at h
            obtain ⟨pre, a', post, heq, hget, hne, hpre⟩ := (ih v).mp h
            refine ⟨a :: pre, a', post, by rw [heq]; rfl, hget, hne, ?_⟩
            intro b hb
            rcases List.mem_cons.mp hb with rfl | hbm
            · exact Or.inr hd
            · exact hpre b hbm
          · rw [pick_value_cons_found row a rest w hd hw] at h
            injection h with h
            subst h
            exact ⟨[], a, rest, rfl, hd, hw, by intro b hb; simp at hb⟩
      · rintro ⟨pre, a', post, heq, hget, hne, hpre⟩
        cases pre with
        | nil =>
          injection heq with h1 h2
          subst h1
          subst h2
          exact pick_value_cons_found _ _ _ _ hget hne
        | cons p ps =>
          injection heq with h1 h2
          subst h1
          subst h2
          rcases hpre a (List.mem_cons_self a ps) with hnone | hempty
          · rw [pick_value_cons_absent row a _ hnone]
            exact (ih v).mpr ⟨ps, a', post, rfl, hget, hne,
              fun b hb => hpre b (List.mem_cons_of_mem _ hb)⟩
          · rw [pick_value_cons_empty row a _ hempty]
            exact (ih v).mpr ⟨ps, a', post, rfl, hget, hne,
              fun b hb => hpre b (List.mem_cons_of_mem _ hb)⟩
  · intro k
    have hm : (k.map pyToUpper).map pyToLower = k.map pyToLower := by
      induction k with
      | nil => rfl
      | cons c cs ihk => simp [List.map_cons, ihk, pyToLower_pyToUpper]
    unfold normalize_key
    rw [hm]
  · intro k
    induction k with
    | nil => rfl
    | cons c cs ihk =>
      by_cases ha : pyIsAlnum c
      · rw [List.filter_cons_of_pos ha, normalize_key_cons, normalize_key_cons,
          if_pos ha, if_pos ha, ihk]
      · rw [List.filter_cons_of_neg ha, normalize_key_cons, if_neg ha, ihk]

/-- Witness for C3: in a row whose only normalized header is `drawno`, the
round aliases resolve to its value, with the lower-priority alias `round`
absent. -/
theorem C3_witness :
    pick_value [(str "drawno", str "12")] (FIELD_ALIASES "round") =
      some (str "12") :=
  (C3_alias_resolution.1 _ _ _).mpr
    ⟨[str "round"], str "drawno", [str "drawnum", str "draw", str "회차"],
      by decide, by decide, by decide, by
        intro b hb
        rw [List.mem_singleton] at hb
        subst hb
        exact Or.inl (by decide)⟩

theorem missingOf_spec (dd bb : Option Str) (ns : List (Option Str)) :
    ("date" ∈ missingOf dd bb ns ↔ dd = none) ∧
    ("bonus" ∈ missingOf dd bb ns ↔ bb = none) ∧
    ("num1~num6" ∈ missingOf dd bb ns ↔ ns.any (fun x => x = none) = true) ∧
    (missingOf dd bb ns ≠ [] ↔
      (dd = none ∨ bb = none ∨ ns.any (fun x => x = none) = true)) ∧
    ∀ x ∈ missingOf dd bb ns, x = "date" ∨ x = "bonus" ∨ x = "num1~num6" := by
  unfold missingOf
  rcases dd with _ | d <;> rcases bb with _ | b <;>
    by_cases ha : ns.any (fun x => x = none) = true <;>
    simp [ha]

/-- C6: for a non-blank row (round present) with any of date, bonus or a
numeric slot absent, the row parser fails with the missing-fields error at
that row number, whose field list contains "date" exactly when the date is
absent, "bonus" exactly when the bonus is absent, the literal group
"num1~num6" exactly when some numeric slot is absent, and nothing else;
concretely, a CSV whose rows lack only a bonus column fails citing exactly
"bonus" at row 2. -/
theorem C6_missing_fields_error :
    (∀ (n : Nat) (row : Row) (round_raw : Str),
      pick_value row (FIELD_ALIASES "round") = some round_raw →
      (pick_value row (FIELD_ALIASES "date") = none ∨
        pick_value row (FIELD_ALIASES "bonus") = none ∨
        ([pick_value row (FIELD_ALIASES "num1"), pick_value row (FIELD_ALIASES "num2"),
          pick_value row (FIELD_ALIASES "num3"), pick_value row (FIELD_ALIASES "num4"),
          pick_value row (FIELD_ALIASES "num5"),
          pick_value row (FIELD_ALIASES "num6")].any fun x => x = none) = true) →
      ∃ ms, parseRow n row = .error (.missingFields n ms) ∧
        ("date" ∈ ms ↔ pick_value row (FIELD_ALIASES "date") = none) ∧
        ("bonus" ∈ ms ↔ pick_value row (FIELD_ALIASES "bonus") = none) ∧
        ("num1~num6" ∈ ms ↔
          ([pick_value row (FIELD_ALIASES "num1"), pick_value row (FIELD_ALIASES "num2"),
            pick_value row (FIELD_ALIASES "num3"), pick_value row (FIELD_ALIASES "num4"),
            pick_value row (FIELD_ALIASES "num5"),
            pick_value row (FIELD_ALIASES "num6")].any fun x => x = none) = true) ∧
        ∀ x ∈ ms, x = "date" ∨ x = "bonus" ∨ x = "num1~num6") ∧
    parse_draws (str "round,date,num1,num2,num3,num4,num5,num6\n1,2024.01.06,1,2,3,4,5,6\n") =
      .error (.missingFields 2 ["bonus"]) := by
  constructor
  · intro n row round_raw hr hm
    obtain ⟨h1, h2, h3, h4, h5⟩ := missingOf_spec (pick_value row (FIELD_ALIASES "date"))
      (pick_value row (FIELD_ALIASES "bonus"))
      [pick_value row (FIELD_ALIASES "num1"), pick_value row (FIELD_ALIASES "num2"),
        pick_value row (FIELD_ALIASES "num3"), pick_value row (FIELD_ALIASES "num4"),
        pick_value row (FIELD_ALIASES "num5"), pick_value row (FIELD_ALIASES "num6")]
    refine ⟨_, ?_, h1, h2, h3, h5⟩
    simp only [parseRow, hr]
    rw [if_pos (h4.mpr hm)]
  · decide

/-- Witness for C6 at a row holding only a round value: every other field is
reported missing. -/
theorem C6_witness :
    ∃ ms, parseRow 5 [(str "round", str "1")] = .error (.missingFields 5 ms) ∧
      ("date" ∈ ms ↔
        pick_value [(str "round", str "1")] (FIELD_ALIASES "date") = none) ∧
      ("bonus" ∈ ms ↔
        pick_value [(str "round", str "1")] (FIELD_ALIASES "bonus") = none) ∧
      ("num1~num6" ∈ ms ↔
        ([pick_value [(str "round", str "1")] (FIELD_ALIASES "num1"),
          pick_value [(str "round", str "1")] (FIELD_ALIASES "num2"),
          pick_value [(str "round", str "1")] (FIELD_ALIASES "num3"),
          pick_value [(str "round", str "1")] (FIELD_ALIASES "num4"),
          pick_value [(str "round", str "1")] (FIELD_ALIASES "num5"),
          pick_value [(str "round", str "1")] (FIELD_ALIASES "num6")].any
            fun x => x = none) = true) ∧
      ∀ x ∈ ms, x = "date" ∨ x = "bonus" ∨ x = "num1~num6" :=
  C6_missing_fields_error.1 5 [(str "round", str "1")] (str "1") (by decide)
    (Or.inl (by decide))

theorem digitpartAux_cons_ne (acc : Nat) (c : Char) (w : Str) (hcu : c ≠ '_') :
    digitpartAux acc (c :: w) =
      if c.isDigit then digitpartAux (acc * 10 + digitVal c) w else none := by
  rw [digitpartAux.eq_def]
  simp [hcu]

theorem digitpartAux_some_iff :
    ∀ (L : ℕ) (v : Str), v.length ≤ L → ∀ acc : ℕ,
      (∃ m, digitpartAux acc v = some m) ↔ TailSep v := by
  intro L
  induction L with
  | zero =>
    intro v hv acc
    have hnil : v = [] := List.length_eq_zero.mp (Nat.le_zero.mp hv)
    subst hnil
    exact ⟨fun _ => TailSep.nil, fun _ => ⟨acc, rfl⟩⟩
  | succ L ihL =>
    intro v hv acc
    rcases v with _ | ⟨c, w⟩
    · exact ⟨fun _ => TailSep.nil, fun _ => ⟨acc, rfl⟩⟩
    · by_cases hcu : c = '_'
      · subst hcu
        rcases w with _ | ⟨c2, w2⟩
        · constructor
          · rintro ⟨m, hm⟩
            simp [digitpartAux] at hm
          · intro ht
            cases ht with
            | digit _ _ hc _ => exact absurd hc (by decide)
        · have e : digitpartAux acc ('_' :: c2 :: w2) =
              if c2.isDigit then digitpartAux (acc * 10 + digitVal c2) w2
              else none := by
            simp [digitpartAux]
          cases hc2 : c2.isDigit
          · rw [e, if_neg (by simp [hc2])]
            constructor
            · rintro ⟨m, hm⟩
              simp at hm
            · intro ht
              cases ht with
              | digit _ _ hc _ => exact absurd hc (by decide)
              | sep _ _ hc _ => exact absurd hc (by simp [hc2])
          · rw [e, if_pos (by simp [hc2])]
            have ih2 := ihL w2 (by simp at hv; omega) (acc * 10 + digitVal c2)
            constructor
            · intro hm
              exact TailSep.sep c2 w2 hc2 (ih2.mp hm)
            · intro ht
              cases ht with
              | digit _ _ hc _ => exact absurd hc (by decide)
              | sep _ _ _ ht2 => exact ih2.mpr ht2
      · have e := digitpartAux_cons_ne acc c w hcu
        cases hc : c.isDigit
        · rw [e, if_neg (by simp [hc])]
          constructor
          · rintro ⟨m, hm⟩
            simp at hm
          · intro ht
            cases ht with
            | digit _ _ hcd _ => exact absurd hcd (by simp [hc])
            | sep _ _ _ _ => exact absurd rfl hcu
        · rw [e, if_pos (by simp [hc])]
          have ih2 := ihL w (by simp at hv; omega) (acc * 10 + digitVal c)
          constructor
          · intro hm
            exact TailSep.digit c w hc (ih2.mp hm)
          · intro ht
            cases ht with
            | digit _ _ _ ht2 => exact ih2.mpr ht2
            | sep _ _ _ _ => exact absurd rfl hcu

theorem digitpartAux_val :
    ∀ (L : ℕ) (v : Str), v.length ≤ L → ∀ (acc m : ℕ),
      digitpartAux acc v = some m →
      m = (v.filter fun c => c ≠ '_').foldl (fun a c => a * 10 + digitVal c) acc := by
  intro L
  induction L with
  | zero =>
    intro v hv acc m hm
    have hnil : v = [] := List.length_eq_zero.mp (Nat.le_zero.mp hv)
    subst hnil
    injection hm with hm
    rw [← hm]
    rfl
  | succ L ihL =>
    intro v hv acc m hm
    rcases v with _ | ⟨c, w⟩
    · injection hm with hm
      rw [← hm]
      rfl
    · by_cases hcu : c = '_'
      · subst hcu
        rcases w with _ | ⟨c2, w2⟩
        · simp [digitpartAux] at hm
        · have e : digitpartAux acc ('_' :: c2 :: w2) =
              if c2.isDigit then digitpartAux (acc * 10 + digitVal c2) w2
              else none := by
            simp [digitpartAux]
          cases hc2 : c2.isDigit
          · rw [e, if_neg (by simp [hc2])] at hm
            simp at hm
          · rw [e, if_pos (by simp [hc2])] at hm
            have hne : c2 ≠ '_' := by
              rintro rfl
              exact absurd hc2 (by decide)
            have := ihL w2 (by simp at hv; omega) (acc * 10 + digitVal c2) m hm
            rw [this]
            simp [List.filter_cons, hne]
      · have e := digitpartAux_cons_ne acc c w hcu
        cases hc : c.isDigit
        · rw [e, if_neg (by simp [hc])] at hm
          simp at hm
        · rw [e, if_pos (by simp [hc])] at hm
          have := ihL w (by simp at hv; omega) (acc * 10 + digitVal c) m hm
          rw [this]
          simp [List.filter_cons, hcu]

theorem tailSep_digitsSep :
    ∀ (rest : Str), TailSep rest → ∀ (c : Char), c.isDigit → DigitsSep (c :: rest) := by
  intro rest ht
  induction ht with
  | nil => exact fun c hc => DigitsSep.single c hc
  | digit c2 rest2 hc2 _ ih => exact fun c hc => DigitsSep.more c (c2 :: rest2) hc (ih c2 hc2)
  | sep c2 rest2 hc2 _ ih => exact fun c hc => DigitsSep.sep c (c2 :: rest2) hc (ih c2 hc2)

theorem digitsSep_tailSep : ∀ (v : Str), DigitsSep v → TailSep v := by
  intro v h
  induction h with
  | single c hc => exact TailSep.digit c [] hc TailSep.nil
  | more c rest hc _ ih => exact TailSep.digit c rest hc ih
  | sep c rest hc hd ih =>
    cases hd with
    | single c2 hc2 =>
      exact TailSep.digit c _ hc (TailSep.sep c2 [] hc2 TailSep.nil)
    | more c2 rest2 hc2 _ =>
      have ht2 : TailSep rest2 := by
        cases ih with
        | digit _ _ _ h2 => exact h2
        | sep _ _ _ _ => exact absurd hc2 (by decide)
      exact TailSep.digit c _ hc (TailSep.sep c2 rest2 hc2 ht2)
    | sep c2 rest2 hc2 _ =>
      have ht2 : TailSep ('_' :: rest2) := by
        cases ih with
        | digit _ _ _ h2 => exact h2
        | sep _ _ _ _ => exact absurd hc2 (by decide)
      exact TailSep.digit c _ hc (TailSep.sep c2 ('_' :: rest2) hc2 ht2)

theorem digitsSep_cons_iff (c : Char) (rest : Str) :
    DigitsSep (c :: rest) ↔ (c.isDigit = true ∧ TailSep rest) := by
  constructor
  · intro h
    cases h with
    | single _ hc => exact ⟨hc, TailSep.nil⟩
    | more _ _ hc hd => exact ⟨hc, digitsSep_tailSep _ hd⟩
    | sep _ _ hc hd =>
      have ht := digitsSep_tailSep _ hd
      cases hd with
      | single c2 hc2 => exact ⟨hc, TailSep.sep c2 [] hc2 TailSep.nil⟩
      | more c2 rest2 hc2 _ =>
        have ht2 : TailSep rest2 := by
          cases ht with
          | digit _ _ _ h2 => exact h2
          | sep _ _ _ _ => exact absurd hc2 (by decide)
        exact ⟨hc, TailSep.sep c2 rest2 hc2 ht2⟩
      | sep c2 rest2 hc2 _ =>
        have ht2 : TailSep ('_' :: rest2) := by
          cases ht with
          | digit _ _ _ h2 => exact h2
          | sep _ _ _ _ => exact absurd hc2 (by decide)
        exact ⟨hc, TailSep.sep c2 ('_' :: rest2) hc2 ht2⟩
  · rintro ⟨hc, ht⟩
    exact tailSep_digitsSep rest ht c hc

theorem digitpart_some_iff (w : Str) : (∃ m, digitpart w = some m) ↔ DigitsSep w := by
  rcases w with _ | ⟨c, rest⟩
  · constructor
    · rintro ⟨m, hm⟩
      simp [digitpart] at hm
    · intro h
      cases h
  · show (∃ m, (if c.isDigit then digitpartAux (digitVal c) rest else none) = some m) ↔ _
    cases hc : c.isDigit
    · rw [if_neg (by simp [hc])]
      constructor
      · rintro ⟨m, hm⟩
        simp at hm
      · intro h
        rcases (digitsSep_cons_iff c rest).mp h with ⟨hcd, -⟩
        exact absurd hcd (by simp [hc])
    · rw [if_pos (by simp [hc])]
      rw [digitpartAux_some_iff rest.length rest le_rfl (digitVal c),
        digitsSep_cons_iff]
      simp [hc]

theorem digitpart_val (w : Str) (m : ℕ) (h : digitpart w = some m) :
    m = natOfDigits (w.filter fun c => c ≠ '_') := by
  rcases w with _ | ⟨c, rest⟩
  · simp [digitpart] at h
  · have e : digitpart (c :: rest) =
        if c.isDigit then digitpartAux (digitVal c) rest else none := rfl
    cases hc : c.isDigit
    · rw [e, if_neg (by simp [hc])] at h
      simp at h
    · rw [e, if_pos (by simp [hc])] at h
      have hne : c ≠ '_' := by
        rintro rfl
        exact absurd hc (by decide)
      have := digitpartAux_val rest.length rest le_rfl (digitVal c) m h
      rw [this]
      simp [natOfDigits, List.filter_cons, hne]

theorem map_digitpart_pos_iff (w : Str) (k : Int) :
    (digitpart w).map Int.ofNat = some k ↔
      DigitsSep w ∧ k = Int.ofNat (natOfDigits (w.filter fun c => c ≠ '_')) := by
  constructor
  · intro h
    obtain ⟨m, hm, hk⟩ := Option.map_eq_some'.mp h
    exact ⟨(digitpart_some_iff w).mp ⟨m, hm⟩, by rw [← hk, digitpart_val w m hm]⟩
  · rintro ⟨ha, rfl⟩
    obtain ⟨m, hm⟩ := (digitpart_some_iff w).mpr ha
    rw [hm, digitpart_val w m hm]
    rfl

theorem map_digitpart_neg_iff (w : Str) (k : Int) :
    ((digitpart w).map fun n => -Int.ofNat n) = some k ↔
      DigitsSep w ∧ k = -Int.ofNat (natOfDigits (w.filter fun c => c ≠ '_')) := by
  constructor
  · intro h
    obtain ⟨m, hm, hk⟩ := Option.map_eq_some'.mp h
    exact ⟨(digitpart_some_iff w).mp ⟨m, hm⟩, by rw [← hk, digitpart_val w m hm]⟩
  · rintro ⟨ha, rfl⟩
    obtain ⟨m, hm⟩ := (digitpart_some_iff w).mpr ha
    rw [hm, digitpart_val w m hm]
    rfl

theorem pyInt_eq_some_iff (v : Str) (hs : pyStrip v = v) (k : Int) :
    pyInt v = some k ↔ specIntAccept v ∧ k = specIntVal v := by
  rw [pyInt.eq_def, hs]
  rcases v with _ | ⟨c, core⟩
  · constructor
    · intro h
      simp [digitpart] at h
    · rintro ⟨ha, -⟩
      exact absurd ha (by intro hx; cases hx)
  · by_cases h1 : c = '+'
    · subst h1
      simp only [specIntAccept, specIntVal]
      simpa using map_digitpart_pos_iff core k
    · by_cases h2 : c = '-'
      · subst h2
        simp only [specIntAccept, specIntVal]
        simpa using map_digitpart_neg_iff core k
      · simp only [specIntAccept, specIntVal, h1, h2]
        simpa [h1, h2] using map_digitpart_pos_iff (c :: core) k

/-- C5 counterexample: the value "1_0" is not a plain base-10 integer literal
(optional sign then digits), yet `parse_int` accepts it with value 10, because
Python's `int` allows single underscores between digits. -/
theorem C5_counterexample :
    parse_int (str "1_0") "num1" 2 = .ok 10 ∧
      isBase10IntLiteral (str "1_0") = false := by
  constructor
  · decide
  · decide

/-- C5 (amended): on a stripped value, the numeric-field parse succeeds
exactly on the strings of Python's decimal `int` grammar — an optional sign
followed by decimal digits optionally separated by single underscores — with
the denoted value, and on every other value it fails with an error naming the
field, the row number and the raw value; concretely a run over a CSV whose
`num1` cell is "1a" fails with the invalid-integer error for field num1 at
row 2 citing "1a". -/
theorem C5_int_parse_grammar (v : Str) (f : String) (n : Nat)
    (hs : pyStrip v = v) :
    (∀ k : Int, parse_int v f n = .ok k ↔ specIntAccept v ∧ k = specIntVal v) ∧
    (¬ specIntAccept v → parse_int v f n = .error (.invalidInteger n f v)) ∧
    parse_draws (str "round,date,num1,num2,num3,num4,num5,num6,bonusNumber\n1,2024.01.06,1a,2,3,4,5,6,7\n") =
      .error (.invalidInteger 2 "num1" (str "1a")) := by
  refine ⟨?_, ?_, by decide⟩
  · intro k
    rw [parse_int.eq_def]
    cases hp : pyInt v with
    | none =>
      constructor
      · intro h
        exact absurd h (by simp)
      · rintro ⟨ha, -⟩
        have hsome := (pyInt_eq_some_iff v hs (specIntVal v)).mpr ⟨ha, rfl⟩
        rw [hp] at hsome
        exact absurd hsome (by simp)
    | some m =>
      constructor
      · intro h
        have hmk : m = k := by simpa using h
        subst hmk
        exact (pyInt_eq_some_iff v hs m).mp hp
      · rintro ⟨ha, rfl⟩
        have hsome := (pyInt_eq_some_iff v hs (specIntVal v)).mpr ⟨ha, rfl⟩
        rw [hp] at hsome
        injection hsome with hsome
        simp [hsome]
  · intro hna
    rw [parse_int.eq_def]
    cases hp : pyInt v with
    | none => rfl
    | some m => exact absurd ((pyInt_eq_some_iff v hs m).mp hp).1 hna

/-- Witness for C5 at the stripped value "42". -/
theorem C5_witness : parse_int (str "42") "num1" 2 = .ok 42 :=
  ((C5_int_parse_grammar (str "42") "num1" 2 (by decide)).1 42).mpr
    ⟨DigitsSep.more '4' ['2'] (by decide) (DigitsSep.single '2' (by decide)),
      by decide⟩

theorem parse_int_eq_error {v : Str} {f : String} {n : Nat} {e : SyncError}
    (h : parse_int v f n = .error e) : e = .invalidInteger n f v := by
  rw [parse_int.eq_def] at h
  cases hp : pyInt v with
  | none =>
    rw [hp] at h
    injection h with h
    exact h.symm
  | some m =>
    rw [hp] at h
    exact absurd h (by simp)

theorem parse_date_error_row {v : Str} {f : String} {n : Nat} {e : SyncError}
    (h : parse_date v f n = .error e) : rowErrNum e = some n := by
  unfold parse_date at h
  cases hb : datePatternOk v
  · rw [if_pos (by simp [hb])] at h
    injection h with h
    rw [← h]
    rfl
  · rw [if_neg (by simp [hb])] at h
    cases hs2 : strptimeYmdOk v
    · rw [if_neg (by simp [hs2])] at h
      injection h with h
      rw [← h]
      rfl
    · rw [if_pos (by simp [hs2])] at h
      exact absurd h (by simp)

theorem parseRow_error_row {n : Nat} {row : Row} {e : SyncError}
    (h : parseRow n row = .error e) : rowErrNum e = some n := by
  simp only [parseRow] at h
  repeat' split at h
  all_goals first
    | exact Except.noConfusion h
    | (injection h with h2
       subst h2
       rfl)
    | (rename_i e2 heq
       injection h with h2
       subst h2
       first
         | (rw [parse_int_eq_error heq]; rfl)
         | exact parse_date_error_row heq)

theorem processRows_error_ge (fields : List Str) :
    ∀ (lines : List Str) (n : Nat) (e : SyncError) (k : Nat),
      processRows fields lines n = .error e → rowErrNum e = some k → n ≤ k := by
  intro lines
  induction lines with
  | nil =>
    intro n e k h hk
    exact absurd h (by simp [processRows])
  | cons line rest ih =>
    intro n e k h hk
    simp only [processRows] at h
    split at h
    · exact ih n e k h hk
    · split at h
      · rename_i e2 heq
        injection h with h2
        subst h2
        have hr := parseRow_error_row heq
        rw [hr] at hk
        injection hk with hk
        omega
      · have := ih (n + 1) e k h hk
        omega
      · split at h
        · rename_i e2 heq
          injection h with h2
          subst h2
          have := ih (n + 1) e2 k heq hk
          omega
        · exact absurd h (by simp)

/-- C9 counterexample: on a CSV whose first data row has the unparseable
round value "x", the error carries row number 2, not 1 as the claim's
numbering (first data row = row 1) would require. -/
theorem C9_counterexample :
    parse_draws (str "round,date,num1,num2,num3,num4,num5,num6,bonusNumber\nx,2024.01.06,1,2,3,4,5,6,7\n") =
      .error (.invalidInteger 2 "round" (str "x")) ∧
    parse_draws (str "round,date,num1,num2,num3,num4,num5,num6,bonusNumber\nx,2024.01.06,1,2,3,4,5,6,7\n") ≠
      .error (.invalidInteger 1 "round" (str "x")) := by
  constructor
  · decide
  · decide

/-- C9 (amended): every row-level validation error carries a 1-based row
number that counts the header line as row 1, so the first data row after the
header is reported as row 2 and the i-th as row i+1 — never less than 2 —
with skipped blank rows still consuming a number; concretely a bad first data
row is cited as row 2, and a bad second data row behind a skipped blank-round
row as row 3. -/
theorem C9_row_numbers :
    (∀ (csv : Str) (e : SyncError) (k : Nat),
      parse_draws csv = .error e → rowErrNum e = some k → 2 ≤ k) ∧
    parse_draws (str "round,date,num1,num2,num3,num4,num5,num6,bonusNumber\nx,2024.01.06,1,2,3,4,5,6,7\n") =
      .error (.invalidInteger 2 "round" (str "x")) ∧
    parse_draws (str "round,date,num1,num2,num3,num4,num5,num6,bonusNumber\n ,2024.01.06,1,2,3,4,5,6,7\nx,2024.01.13,8,9,10,11,12,13,14\n") =
      .error (.invalidInteger 3 "round" (str "x")) := by
  refine ⟨?_, by decide, by decide⟩
  intro csv e k h hk
  unfold parse_draws at h
  split at h
  · injection h with h2
    rw [← h2] at hk
    simp [rowErrNum] at hk
  · split at h
    · injection h with h2
      rw [← h2] at hk
      simp [rowErrNum] at hk
    · split at h
      · rename_i e2 heq
        injection h with h2
        subst h2
        exact processRows_error_ge _ _ _ _ _ heq hk
      · split at h
        · injection h with h2
          rw [← h2] at hk
          simp [rowErrNum] at hk
        · exact absurd h (by simp)

/-- Witness for C9 applying the row-number bound at the concrete first-row
failure. -/
theorem C9_witness : 2 ≤ 2 :=
  C9_row_numbers.1
    (str "round,date,num1,num2,num3,num4,num5,num6,bonusNumber\nx,2024.01.06,1,2,3,4,5,6,7\n")
    (.invalidInteger 2 "round" (str "x")) 2 (by decide) (by decide)

end LottoSync
